import Mathlib

/-!
Shallow embedding of the generalization-measure code of
`exploring-generalization` (files `src/main.py`, `src/train.py`,
`src/norms/measures.py`) and proofs about it.

Conventions of the embedding:
* a PyTorch weight tensor, after the code's `view(weight.size(0), -1)`
  reshape, is a matrix: a list of rows of rationals (`Weight`);
* a module tree (`nn.Module` hierarchy) is a rose tree whose leaves are
  the four flat-weight layer kinds the code recognises
  (`Linear`, `Conv1d`, `Conv2d`, `Conv3d`) and whose inner nodes are
  container modules; iterating a module yields its children;
* Python floats are modelled as real numbers; values that stay inside
  field arithmetic are kept in `ℚ` so they can be evaluated.
-/

/-- A layer weight matrix as reshaped by `weight.view(weight.size(0), -1)`:
one row per output unit. -/
abbrev Weight := List (List ℚ)

/-- A module tree: a leaf is one of the layer kinds
`Linear`, `Conv1d`, `Conv2d`, `Conv3d` (identified by its reshaped weight
matrix), an inner node is a container module holding children. -/
inductive NNModule where
  | layer (w : Weight) : NNModule
  | container (children : List NNModule) : NNModule
deriving Repr

/-- The children iterated by `for child in module_list` (a container's
sub-modules; the code only ever iterates container modules). -/
def NNModule.childList : NNModule → List NNModule
  | .layer _ => []
  | .container cs => cs

/-- `measures.py` `norm(module, p, q)`: the `l_pq` norm of the reshaped
weight matrix — the `l_p` norm of each row (incoming weights of one hidden
unit) and then the `l_q` norm of the vector of row norms. -/
noncomputable def lpq_norm (p q : ℕ) (w : Weight) : ℝ :=
  let rowNorms := w.map (fun row => ((row.map (fun x => |(x : ℝ)| ^ (p : ℝ))).sum) ^ ((1 : ℝ) / (p : ℝ)))
  ((rowNorms.map (fun r => |r| ^ (q : ℝ))).sum) ^ ((1 : ℝ) / (q : ℝ))

/-- The loop body of `measures.py` `calc_norm`: iterates the children;
for a layer child it adds `log(norm(child, p, q))` to `result`; for a
container child it makes the recursive call `calc_norm(child, p, q, result)`
whose return value is DISCARDED and whose `result` argument is passed by
value, so the accumulator is left unchanged by the recursion. -/
noncomputable def calc_norm_loop (p q : ℕ) : List NNModule → ℝ → ℝ
  | [], result => result
  | .layer w :: rest, result =>
      calc_norm_loop p q rest (result + Real.log (lpq_norm p q w))
  | .container cs :: rest, result =>
      let _ := Real.exp (calc_norm_loop p q cs result)
      calc_norm_loop p q rest result

/-- `measures.py` `calc_norm(module_list, p, q, result)`: runs the loop over
the children of the argument and returns `exp(result)`. -/
noncomputable def calc_norm (m : NNModule) (p q : ℕ) (result : ℝ) : ℝ :=
  Real.exp (calc_norm_loop p q m.childList result)

mutual

/-- The product of `lpq_norm p q` over every layer of the tree, at any
nesting depth (what the spec describes `calc_norm` as computing). -/
noncomputable def allLayerNormProd (p q : ℕ) : NNModule → ℝ
  | .layer w => lpq_norm p q w
  | .container cs => allLayerNormProdList p q cs

/-- The product of `lpq_norm p q` over every layer of a forest. -/
noncomputable def allLayerNormProdList (p q : ℕ) : List NNModule → ℝ
  | [] => 1
  | c :: rest => allLayerNormProd p q c * allLayerNormProdList p q rest

end

/-- The loop body of `measures.py` `calc_spectral_norm`, parameterised by
the per-layer operator norm `opn` (`op_norm` computes the `l_p` norm of the
singular values of the reshaped weight matrix; the SVD itself is left
uninterpreted since the traversal is independent of it). As in `calc_norm`,
the recursive call on a container child is made with `result` passed by
value and its return value DISCARDED. -/
noncomputable def calc_spectral_norm_loop (opn : Weight → ℝ) : List NNModule → ℝ → ℝ
  | [], result => result
  | .layer w :: rest, result =>
      calc_spectral_norm_loop opn rest (result + Real.log (opn w))
  | .container cs :: rest, result =>
      let _ := Real.exp (calc_spectral_norm_loop opn cs result)
      calc_spectral_norm_loop opn rest result

/-- `measures.py` `calc_spectral_norm(model, p, result)`: runs the loop over
`list(model.children())` and returns `exp(result)`. -/
noncomputable def calc_spectral_norm (opn : Weight → ℝ) (m : NNModule) (result : ℝ) : ℝ :=
  Real.exp (calc_spectral_norm_loop opn m.childList result)

mutual

/-- The product of `opn` over every layer of the tree at any nesting depth. -/
noncomputable def allLayerOpNormProd (opn : Weight → ℝ) : NNModule → ℝ
  | .layer w => opn w
  | .container cs => allLayerOpNormProdList opn cs

/-- The product of `opn` over every layer of a forest. -/
noncomputable def allLayerOpNormProdList (opn : Weight → ℝ) : List NNModule → ℝ
  | [] => 1
  | c :: rest => allLayerOpNormProd opn c * allLayerOpNormProdList opn rest

end

/-- `measures.py` `add_module_perturbation(module, alpha)`: executes
`module.weight = alpha * (torch.abs(module.weight) + 1)`, i.e. it REPLACES
the weight by `alpha * (|w| + 1)` elementwise. -/
def add_module_perturbation (alpha : ℚ) (w : Weight) : Weight :=
  w.map (fun row => row.map (fun x => alpha * (|x| + 1)))

mutual

/-- `measures.py` `add_perturbation(module_list, alpha)`: for each layer
child applies `add_module_perturbation` (an in-place mutation, so nested
mutations are visible to the caller), and recurses into container
children. -/
def add_perturbation (alpha : ℚ) : NNModule → NNModule
  | .layer w => .layer w
  | .container cs => .container (add_perturbation_children alpha cs)

/-- The loop of `add_perturbation`: a layer child is perturbed in place by
`add_module_perturbation`; any other child is recursed into. -/
def add_perturbation_children (alpha : ℚ) : List NNModule → List NNModule
  | [] => []
  | .layer w :: rest =>
      .layer (add_module_perturbation alpha w) :: add_perturbation_children alpha rest
  | .container cs :: rest =>
      add_perturbation alpha (.container cs) :: add_perturbation_children alpha rest

end

/-- Claim C1: `calc_norm` is claimed to return the product of the per-layer
`l_pq` norms over layers at any nesting depth. The code discards the result
of its recursive call, so a layer nested two levels deep contributes
nothing: on the module `container [container [layer [[2]]]]` with
`p = q = 1`, `calc_norm` returns `exp 0 = 1`, while the only layer has
`l_11` norm `2`, so the product of all per-layer norms is `2`. -/
theorem calc_norm_drops_nested_layer_norms :
    calc_norm (NNModule.container [NNModule.container [NNModule.layer [[2]]]]) 1 1 0 = 1 ∧
    allLayerNormProd 1 1 (NNModule.container [NNModule.container [NNModule.layer [[2]]]]) = 2 := by
  constructor
  · simp [calc_norm, calc_norm_loop, NNModule.childList, Real.exp_zero]
  · simp [allLayerNormProd, allLayerNormProdList, lpq_norm]

/-- Claim C5: `calc_spectral_norm` is claimed to return the product of the
per-layer operator norms over layers at any nesting depth. Whatever
per-layer operator norm `opn` is used, the traversal discards the result of
its recursive call, so on `container [container [layer [[2]]]]` it returns
`exp 0 = 1`; with any `opn` giving the nested layer a value other than `1`
(e.g. the true largest singular value of `[[2]]`, which is `2`), the
product over all layers differs. -/
theorem calc_spectral_norm_drops_nested :
    (∀ opn : Weight → ℝ,
      calc_spectral_norm opn (NNModule.container [NNModule.container [NNModule.layer [[2]]]]) 0 = 1) ∧
    allLayerOpNormProd (fun _ => 2) (NNModule.container [NNModule.container [NNModule.layer [[2]]]]) = 2 := by
  constructor
  · intro opn
    simp [calc_spectral_norm, calc_spectral_norm_loop, NNModule.childList, Real.exp_zero]
  · simp [allLayerOpNormProd, allLayerOpNormProdList]

/-- Claim C6: the docstring of `add_module_perturbation` (and the claim) say
the perturbation `v = alpha * (|w| + 1)` is ADDED to the weight `w`; the
code instead assigns `module.weight = alpha * (|w| + 1)`, replacing the
weight. At the layer weight `[[1]]` with the default `alpha = 5e-4` the
code produces `[[1/1000]]`, while adding `v` would produce
`[[1 + 1/1000]]`. -/
theorem add_module_perturbation_replaces_not_adds :
    add_module_perturbation (1/2000) [[(1 : ℚ)]] = [[1/1000]] ∧
    [[(1 : ℚ) + (1/2000) * (|(1 : ℚ)| + 1)]] = [[1 + 1/1000]] ∧
    ((1 : ℚ)/1000) ≠ 1 + 1/1000 := by
  refine ⟨?_, ?_, by norm_num⟩
  · simp [add_module_perturbation]
    norm_num
  · norm_num

/-- The quantity under the square root in `train.py` `PAC_KL`, exactly as the
code computes it for an integer `sigma`: Python `sigma ^ 2` is the bitwise
XOR `sigma xor 2`, not the square (for a non-integer `sigma` the expression
raises a `TypeError`). -/
def PAC_KL_sqrt_arg (l2_reg : ℚ) (setsize : ℕ) (sigma : ℕ) : ℚ :=
  (1 / (setsize : ℚ)) * (l2_reg / (2 * ((Nat.xor sigma 2 : ℕ) : ℚ)))

/-- `train.py` `PAC_KL(tr_loss, exp_sharpness, l2_reg, setsize, sigma, delta)`
for an integer `sigma`:
`tr_loss + exp_sharpness + 4 * sqrt((1/setsize) * (l2_reg/(2*(sigma xor 2))) + log((2*setsize)/delta))`. -/
noncomputable def PAC_KL (tr_loss exp_sharpness l2_reg : ℚ) (setsize : ℕ) (sigma : ℕ)
    (delta : ℚ) : ℝ :=
  (tr_loss : ℝ) + (exp_sharpness : ℝ) +
    4 * Real.sqrt ((PAC_KL_sqrt_arg l2_reg setsize sigma : ℚ) +
      Real.log ((2 * (setsize : ℝ)) / (delta : ℝ)))

/-- The formula the claim states for `PAC_KL`, with the denominator
`2 * sigma^2` (the square of the Gaussian variance parameter). -/
noncomputable def PAC_KL_claimed (tr_loss exp_sharpness l2_reg : ℚ) (setsize : ℕ) (sigma : ℚ)
    (delta : ℚ) : ℝ :=
  (tr_loss : ℝ) + (exp_sharpness : ℝ) +
    4 * Real.sqrt (((1 / (setsize : ℚ)) * (l2_reg / (2 * sigma ^ 2)) : ℚ) +
      Real.log ((2 * (setsize : ℝ)) / (delta : ℝ)))

/-- Claim C2: at `tr_loss = exp_sharpness = 0`, `l2_reg = 6`, `setsize = 1`,
`sigma = 1` (the default) and `delta = 1/5` (the default), the code computes
`4 * sqrt(6/(2*(1 xor 2)) + log 10) = 4 * sqrt(1 + log 10)` — the Python
`^` is bitwise XOR, so the denominator is `2 * 3 = 6` — while the claimed
formula with denominator `2 * sigma^2 = 2` gives `4 * sqrt(3 + log 10)`;
the two values differ. -/
theorem PAC_KL_xor_not_square :
    PAC_KL 0 0 6 1 1 (1/5) ≠ PAC_KL_claimed 0 0 6 1 1 (1/5) := by
  have hlog : (0 : ℝ) < Real.log ((2 * ((1 : ℕ) : ℝ)) / (((1 : ℚ)/5 : ℚ) : ℝ)) := by
    apply Real.log_pos
    push_cast
    norm_num
  have hx : Nat.xor 1 2 = 3 := by decide
  have harg : (PAC_KL_sqrt_arg 6 1 1 : ℚ) = 1 := by
    norm_num [PAC_KL_sqrt_arg, hx]
  have hclaim : ((1 / ((1 : ℕ) : ℚ)) * (6 / (2 * (1 : ℚ) ^ 2)) : ℚ) = 3 := by norm_num
  have hlt : PAC_KL 0 0 6 1 1 (1/5) < PAC_KL_claimed 0 0 6 1 1 (1/5) := by
    unfold PAC_KL PAC_KL_claimed
    rw [harg, hclaim]
    have hs : Real.sqrt (((1 : ℚ) : ℝ) + Real.log ((2 * ((1 : ℕ) : ℝ)) / (((1 : ℚ)/5 : ℚ) : ℝ)))
        < Real.sqrt (((3 : ℚ) : ℝ) + Real.log ((2 * ((1 : ℕ) : ℝ)) / (((1 : ℚ)/5 : ℚ) : ℝ))) := by
      apply Real.sqrt_lt_sqrt
      · positivity
      · push_cast
        linarith
    have h4 : (4 : ℝ) * Real.sqrt (((1 : ℚ) : ℝ) + Real.log ((2 * ((1 : ℕ) : ℝ)) / (((1 : ℚ)/5 : ℚ) : ℝ)))
        < 4 * Real.sqrt (((3 : ℚ) : ℝ) + Real.log ((2 * ((1 : ℕ) : ℝ)) / (((1 : ℚ)/5 : ℚ) : ℝ))) := by
      linarith
    linarith
  exact ne_of_lt hlt

/-- Modelled from the spec: the network classes (`models/fc.py`,
`models/vgg.py`) are not under `src/`; per the spec the `fc` option is "a
fully-connected network", modelled as affine layers. One affine layer:
a weight matrix (one row per output unit) and a bias vector, all trainable
(`requires_grad`). -/
structure LinLayer where
  weight : Weight
  bias : List ℚ
deriving Repr

/-- Modelled from the spec: a fully-connected network is a sequence of
affine layers. -/
abbrev Network := List LinLayer

/-- Dot product of a weight row with the input vector. -/
def dot (r x : List ℚ) : ℚ := ((r.zip x).map (fun p => p.1 * p.2)).sum

/-- Output of one affine layer: `W x + b`, one entry per output unit. -/
def layerOut (l : LinLayer) (x : List ℚ) : List ℚ :=
  (l.weight.zip l.bias).map (fun rb => dot rb.1 x + rb.2)

/-- Modelled from the spec: forward pass of the fully-connected network,
with a ReLU between consecutive affine layers and none after the last. -/
def forward (net : Network) (x : List ℚ) : List ℚ :=
  match net with
  | [] => x
  | [l] => layerOut l x
  | l :: l2 :: rest => forward (l2 :: rest) ((layerOut l x).map (fun v => max v 0))

/-- The parameter loop of `measures.py` `lp_path_norm`: for every parameter
tensor with `requires_grad` (every weight and bias here) it runs
`param.abs_().pow_(p)` in place, layer after layer. -/
def pow_params_loop (p : ℕ) : Network → Network
  | [] => []
  | l :: rest =>
      { weight := l.weight.map (fun row => row.map (fun x => |x| ^ p)),
        bias := l.bias.map (fun x => |x| ^ p) } :: pow_params_loop p rest

/-- The network in which every trainable parameter `w` has been replaced by
`|w|^p` (the replacement the claim describes), as a single map. -/
def absPowNet (p : ℕ) (net : Network) : Network :=
  net.map (fun l =>
    { weight := l.weight.map (fun row => row.map (fun x => |x| ^ p)),
      bias := l.bias.map (fun x => |x| ^ p) })

/-- `measures.py` `lp_path_norm(model, device, p, input_size)` as a state
transformer: the first component is the returned value
`(tmp_model(ones).sum() ** (1/p)).item()`, the second is what the caller's
`model` refers to after the call — the code deep-copies the model
(`tmp_model = copy.deepcopy(model)`) and mutates only the copy. -/
noncomputable def lp_path_norm (model : Network) (p : ℕ) (input_size : ℕ) : ℝ × Network :=
  let tmp_model := model
  let mutated := pow_params_loop p tmp_model
  ((((forward mutated (List.replicate input_size 1)).sum : ℚ) : ℝ) ^ ((1 : ℝ) / (p : ℝ)),
    model)

/-- Claim C3: `lp_path_norm` returns the `p`-th root of the summed output of
the network whose every trainable parameter `w` has been replaced by
`|w|^p`, evaluated on an all-ones input. -/
theorem lp_path_norm_correct (model : Network) (p : ℕ) (input_size : ℕ) :
    (lp_path_norm model p input_size).1 =
      (((forward (absPowNet p model) (List.replicate input_size 1)).sum : ℚ) : ℝ) ^
        ((1 : ℝ) / (p : ℝ)) := by
  have h : pow_params_loop p model = absPowNet p model := by
    induction model with
    | nil => rfl
    | cons l rest ih => simp [pow_params_loop, absPowNet] at ih ⊢; exact ih
  simp [lp_path_norm, h]

/-- Claim C9: `lp_path_norm` leaves the caller's model unchanged: the
absolute-value and power mutations are applied to a deep copy only, so the
second component of the state transformer is the original model. -/
theorem lp_path_norm_preserves_model (model : Network) (p : ℕ) (input_size : ℕ) :
    (lp_path_norm model p input_size).2 = model := rfl

/-- torch `.min()` over a vector, modelled for nonempty vectors (the code
only applies it to a row of class scores; `0` for the empty vector). -/
def listMin : List ℚ → ℚ
  | [] => 0
  | [x] => x
  | x :: y :: rest => min x (listMin (y :: rest))

/-- torch `.max()` over a vector, modelled for nonempty vectors. -/
def listMax : List ℚ → ℚ
  | [] => 0
  | [x] => x
  | x :: y :: rest => max x (listMax (y :: rest))

theorem listMax_cons (x : ℚ) (l : List ℚ) (h : l ≠ []) :
    listMax (x :: l) = max x (listMax l) := by
  cases l with
  | nil => exact absurd rfl h
  | cons y rest => rfl

theorem listMax_mem (l : List ℚ) (h : l ≠ []) : listMax l ∈ l := by
  induction l with
  | nil => exact absurd rfl h
  | cons x rest ih =>
    cases rest with
    | nil => simp [listMax]
    | cons y r2 =>
      rw [listMax_cons x (y :: r2) (by simp)]
      rcases max_choice x (listMax (y :: r2)) with hc | hc
      · rw [hc]; exact List.mem_cons_self x _
      · rw [hc]; exact List.mem_cons_of_mem x (ih (by simp))

theorem le_listMax (l : List ℚ) (y : ℚ) (h : y ∈ l) : y ≤ listMax l := by
  induction l with
  | nil => cases h
  | cons x rest ih =>
    cases rest with
    | nil => simp at h; simp [listMax, h]
    | cons z r2 =>
      rw [listMax_cons x (z :: r2) (by simp)]
      rcases List.mem_cons.mp h with hy | hy
      · rw [hy]; exact le_max_left _ _
      · exact le_trans (ih hy) (le_max_right _ _)

theorem listMax_le (l : List ℚ) (c : ℚ) (h : l ≠ []) (hb : ∀ y ∈ l, y ≤ c) :
    listMax l ≤ c :=
  hb (listMax l) (listMax_mem l h)

theorem listMin_le (l : List ℚ) (y : ℚ) (h : y ∈ l) : listMin l ≤ y := by
  induction l with
  | nil => cases h
  | cons x rest ih =>
    cases rest with
    | nil => simp at h; simp [listMin, h]
    | cons z r2 =>
      have : listMin (x :: z :: r2) = min x (listMin (z :: r2)) := rfl
      rw [this]
      rcases List.mem_cons.mp h with hy | hy
      · rw [hy]; exact min_le_left _ _
      · exact le_trans (min_le_right _ _) (ih hy)

theorem listMax_perm (l l2 : List ℚ) (hp : l.Perm l2) (h : l ≠ []) :
    listMax l = listMax l2 := by
  have h2 : l2 ≠ [] := by
    intro hnil
    rw [hnil] at hp
    exact h (List.Perm.eq_nil hp)
  apply le_antisymm
  · exact listMax_le l _ h (fun y hy => le_listMax l2 y (hp.subset hy))
  · exact listMax_le l2 _ h2 (fun y hy => le_listMax l y (hp.symm.subset hy))

/-- Helper: indexing a list at the index of a member returns that member
(`output_m[:, output_m.max(1)[1]].diag()` reads the row at its argmax). -/
theorem list_getD_indexOf (l : List ℚ) (a : ℚ) (h : a ∈ l) :
    l.getD (l.indexOf a) 0 = a := by
  rw [List.getD_eq_getElem?_getD]
  rw [List.getElem?_eq_getElem (List.indexOf_lt_length.2 h)]
  simp [List.getElem_indexOf]

/-- After the true-class entry is overwritten with the row minimum, the row
maximum is the best incorrect-class score. -/
theorem listMax_set_min (row : List ℚ) (t : ℕ) (ht : t < row.length)
    (h2 : 2 ≤ row.length) :
    listMax (row.set t (listMin row)) = listMax (row.eraseIdx t) := by
  have hperm : (row.set t (listMin row)).Perm (listMin row :: row.eraseIdx t) := by
    rw [List.set_eq_take_append_cons_drop, if_pos ht, List.eraseIdx_eq_take_drop_succ]
    exact List.perm_middle
  have hset_ne : row.set t (listMin row) ≠ [] := by
    apply List.ne_nil_of_length_pos
    rw [List.length_set]
    omega
  have he_ne : row.eraseIdx t ≠ [] := by
    intro hnil
    have := congrArg List.length hnil
    simp [List.length_eraseIdx, ht] at this
    omega
  rw [listMax_perm _ _ hperm hset_ne, listMax_cons _ _ he_ne]
  apply max_eq_right
  exact listMin_le row _ (List.mem_of_mem_eraseIdx (listMax_mem _ he_ne))

/-- The per-example margin as computed inside `validate` (both in `main.py`
and `train.py`): clone the score row, overwrite the true-class entry with
the row minimum (`output_m[i, target[i]] = output_m[i, :].min()`), then
subtract the clone's value at its own argmax from the original true-class
score (`output[:, target].diag() - output_m[:, output_m.max(1)[1]].diag()`). -/
def example_margin (row : List ℚ) (t : ℕ) : ℚ :=
  let output_m := row.set t (listMin row)
  row.getD t 0 - output_m.getD (output_m.indexOf (listMax output_m)) 0

/-- The best incorrect-class score: the maximum of the scores at all classes
other than `t`. -/
def best_other (row : List ℚ) (t : ℕ) : ℚ := listMax (row.eraseIdx t)

/-- Claim C4: for a score row with at least two classes and a valid true
label `t`, the margin appended by `validate` equals the true-class score
minus the maximum score over the classes different from `t`. -/
theorem validate_margin_correct (row : List ℚ) (t : ℕ) (ht : t < row.length)
    (h2 : 2 ≤ row.length) :
    example_margin row t = row.getD t 0 - best_other row t := by
  simp only [example_margin, best_other]
  have hset_ne : row.set t (listMin row) ≠ [] := by
    apply List.ne_nil_of_length_pos
    rw [List.length_set]
    omega
  rw [list_getD_indexOf _ _ (listMax_mem _ hset_ne), listMax_set_min row t ht h2]

/-- Witness for C4 at the concrete row `[3, 1, 5]` with true label `0`:
the margin is `3 - 5 = -2`. -/
theorem validate_margin_correct_witness :
    0 < ([(3 : ℚ), 1, 5]).length ∧ 2 ≤ ([(3 : ℚ), 1, 5]).length ∧
    example_margin [(3 : ℚ), 1, 5] 0 = ([(3 : ℚ), 1, 5]).getD 0 0 - best_other [(3 : ℚ), 1, 5] 0 :=
  ⟨by decide, by decide, validate_margin_correct [(3 : ℚ), 1, 5] 0 (by decide) (by decide)⟩

/-- The kind of network an entry point constructs. -/
inductive NetKind where
  | vgg : NetKind
  | fc : NetKind
deriving Repr, DecidableEq

/-- Model construction in `main.py` `main`: `if args.model == "vgg"` a VGG
network is built; otherwise the function prints "no valid model input." and
RETURNS, so no model is built and training never starts (`none`). -/
def main_py_build_model (model_arg : String) : Option NetKind :=
  if model_arg = "vgg" then some NetKind.vgg else none

/-- Model construction in `train.py` `main`: `if args.network == 'vgg'` a VGG
network is built, `elif args.network == 'fc'` a fully-connected network is
built; any other value leaves `model` unbound and the following
`model.to(device)` raises a `NameError` (`none`). -/
def train_py_build_model (network_arg : String) : Option NetKind :=
  if network_arg = "vgg" then some NetKind.vgg
  else if network_arg = "fc" then some NetKind.fc
  else none

/-- Counterexample to claim C7: in `main.py`, passing `--model fc` does NOT
construct a fully-connected network — the run terminates without training
(`none`), despite the argument help listing `fc` as an option. -/
theorem main_py_fc_not_trained : main_py_build_model "fc" ≠ some NetKind.fc := by
  decide

/-- Claim C7 amended: `train.py`'s entry point constructs a fully-connected
network for the `fc` argument and proceeds to training, while `main.py`'s
entry point terminates without constructing a model for every argument
other than `"vgg"`, including `"fc"`. -/
theorem fc_option_entry_points :
    train_py_build_model "fc" = some NetKind.fc ∧
    train_py_build_model "vgg" = some NetKind.vgg ∧
    main_py_build_model "vgg" = some NetKind.vgg ∧
    main_py_build_model "fc" = none := by
  refine ⟨?_, ?_, ?_, ?_⟩ <;> decide

/-- The binding of `num_samples` in `main.py` `main`: it is assigned
(`num_samples = len(train_dataset)`) only under
`if args.trainingsetsize == -1`; the subsequent
`RandomSampler(train_dataset, replacement=True, num_samples=num_samples)`
reads it unconditionally, so for any other value the name is unbound and a
`NameError` is raised before the sampler, the loaders or the training loop
are ever built (`none`). -/
def main_py_num_samples (trainingsetsize : Int) (dataset_len : ℕ) : Option ℕ :=
  if trainingsetsize = -1 then some dataset_len else none

/-- `main.py` reaches its training loop only if the sampler was built, i.e.
only if `num_samples` was bound. -/
def main_py_training_starts (trainingsetsize : Int) (dataset_len : ℕ) : Bool :=
  (main_py_num_samples trainingsetsize dataset_len).isSome

/-- Claim C8: for every `--trainingsetsize` value other than `-1`,
`main.py` raises a `NameError` building the `RandomSampler` (the variable
`num_samples` is only assigned in the `-1` branch), so training never
starts. -/
theorem restricted_trainingsetsize_raises (trainingsetsize : Int) (dataset_len : ℕ)
    (h : trainingsetsize ≠ -1) :
    main_py_num_samples trainingsetsize dataset_len = none ∧
    main_py_training_starts trainingsetsize dataset_len = false := by
  constructor
  · simp [main_py_num_samples, h]
  · simp [main_py_training_starts, main_py_num_samples, h]

/-- Witness for C8 at the concrete argument `--trainingsetsize 5000` on the
50000-example CIFAR10 training set. -/
theorem restricted_trainingsetsize_raises_witness :
    (5000 : Int) ≠ -1 ∧
    (main_py_num_samples 5000 50000 = none ∧
      main_py_training_starts 5000 50000 = false) :=
  ⟨by decide, restricted_trainingsetsize_raises 5000 50000 (by decide)⟩

/-- `np.percentile(a, pct)` with numpy's default linear interpolation:
sort ascending, locate the fractional position `pct/100 * (n-1)`, and
interpolate linearly between the two neighbouring order statistics. -/
def percentile (pct : ℚ) (l : List ℚ) : ℚ :=
  let s := l.mergeSort (fun a b => a ≤ b)
  let pos : ℚ := (pct / 100) * ((s.length : ℚ) - 1)
  let lo : ℕ := (Int.floor pos).toNat
  let frac : ℚ := pos - (lo : ℚ)
  s.getD lo 0 + frac * (s.getD (lo + 1) 0 - s.getD lo 0)

/-- The score rows `model(data)` of one batch. -/
def batch_outputs {α : Type} (model : α → List ℚ) (batch : List (α × ℕ)) : List (List ℚ) :=
  batch.map (fun ex => model ex.1)

/-- The labels of one batch. -/
def batch_targets {α : Type} (batch : List (α × ℕ)) : List ℕ :=
  batch.map (fun ex => ex.2)

/-- Whether `pred.eq(target)` holds for one example: the predicted class
`output.max(1)[1]` (the argmax of the score row) equals the label. -/
def is_correct {α : Type} (model : α → List ℚ) (ex : α × ℕ) : Bool :=
  (model ex.1).indexOf (listMax (model ex.1)) == ex.2

/-- `pred.eq(target).sum().item()` for one batch. -/
def batch_correct {α : Type} (model : α → List ℚ) (batch : List (α × ℕ)) : ℕ :=
  batch.countP (is_correct model)

/-- The per-example margins of one batch (the tensor concatenated onto
`margin` in each loop iteration). -/
def batch_margins {α : Type} (model : α → List ℚ) (batch : List (α × ℕ)) : List ℚ :=
  batch.map (fun ex => example_margin (model ex.1) ex.2)

/-- `train.py` `validate(model, device, data_loader, criterion)`: iterates
the batches accumulating `sum_correct` and
`sum_loss += len(data) * criterion(output, target)`, concatenates the
per-batch margins, takes `np.percentile(margin, 5)`, and divides by
`len(data_loader.sampler)` (the number of examples the loader yields).
`criterion` is the batch's mean loss, abstract here. Returns
`(1 - sum_correct/len_dataset, sum_loss/len_dataset, margin)`. -/
def validate {α : Type} (model : α → List ℚ) (criterion : List (List ℚ) → List ℕ → ℚ)
    (batches : List (List (α × ℕ))) : ℚ × ℚ × ℚ :=
  let sum_correct : ℕ := (batches.map (fun b => batch_correct model b)).sum
  let sum_loss : ℚ :=
    (batches.map (fun b => (b.length : ℚ) * criterion (batch_outputs model b) (batch_targets b))).sum
  let margin : List ℚ := (batches.map (fun b => batch_margins model b)).flatten
  let len_dataset : ℕ := (batches.map List.length).sum
  (1 - (sum_correct : ℚ) / (len_dataset : ℚ),
    sum_loss / (len_dataset : ℚ),
    percentile 5 margin)

/-- The fraction of correctly classified examples over the whole evaluation
set (all batches flattened). -/
def fraction_correct {α : Type} (model : α → List ℚ) (batches : List (List (α × ℕ))) : ℚ :=
  ((batches.flatten.countP (is_correct model) : ℕ) : ℚ) / ((batches.flatten.length : ℕ) : ℚ)

/-- The length-weighted average of the per-batch losses. -/
def length_weighted_avg_loss {α : Type} (model : α → List ℚ)
    (criterion : List (List ℚ) → List ℕ → ℚ) (batches : List (List (α × ℕ))) : ℚ :=
  (batches.map (fun b => (b.length : ℚ) * criterion (batch_outputs model b) (batch_targets b))).sum /
    ((batches.flatten.length : ℕ) : ℚ)

/-- The per-example margins collected over the entire evaluation set. -/
def all_margins {α : Type} (model : α → List ℚ) (batches : List (List (α × ℕ))) : List ℚ :=
  batches.flatten.map (fun ex => example_margin (model ex.1) ex.2)

/-- Claim C10: `validate` returns `1` minus the fraction of correctly
classified examples, the length-weighted average loss, and — not a
per-example quantity — the 5th percentile of the per-example margins
collected over the entire evaluation set. -/
theorem validate_components_correct {α : Type} (model : α → List ℚ)
    (criterion : List (List ℚ) → List ℕ → ℚ) (batches : List (List (α × ℕ))) :
    validate model criterion batches =
      (1 - fraction_correct model batches,
        length_weighted_avg_loss model criterion batches,
        percentile 5 (all_margins model batches)) := by
  have hcount : (batches.map (fun b => batch_correct model b)).sum
      = batches.flatten.countP (is_correct model) := by
    simp [batch_correct, List.countP_flatten]
  have hlen : (batches.map List.length).sum = batches.flatten.length := by
    simp [List.length_flatten]
  have hmargin : (batches.map (fun b => batch_margins model b)).flatten
      = all_margins model batches := by
    simp [batch_margins, all_margins, List.map_flatten]
  simp only [validate, hcount, hlen, hmargin]
  rfl
